import Mathlib

/-
Shallow embedding of `ranger` (src/src/lib.rs): a coalescing interval set
over an unsigned integral domain.

Unsigned machine integers of width w are modelled as `Nat` together with an
explicit upper bound `MAX` (255 for u8, 65535 for u16):
  * `saturating_sub` is `Nat` subtraction (already truncated at 0);
  * `saturating_add` clamps at `MAX`;
  * the one unchecked addition in the source (`Unit::combine`, the
    range/range branch, `*sh + T::one()` and `*oh + T::one()`) is modelled
    as a checked addition returning `Option`, so that an overflow panic
    surfaces as `none`.

`BTreeSet<Unit<T>>` is modelled as the in-order list of its elements.  For
the sizes arising in every concrete execution below (at most 8 elements)
the real B-tree is a single leaf node, whose search (`search_linear`)
scans keys left to right comparing probe against key: `Greater` continues,
`Equal` is a hit, `Less` stops at that edge.  The list operations
`sfind`, `sinsert`, `sremove`, `sreplace` implement exactly that scan,
with the documented `BTreeSet::insert` (keep old on equal),
`BTreeSet::remove` (delete the equal element) and `BTreeSet::replace`
(swap the new value in place at the equal element's position) semantics.
-/

/-- Embeds `Unit<T>`: `Single(T)` or `Range((T, T))`.  (`Unit` itself is
taken by Lean's core, hence the `R` prefix.) -/
inductive RUnit where
  | single : Nat → RUnit
  | range : Nat → Nat → RUnit
deriving DecidableEq, Repr

/-- `saturating_add` for an unsigned type with maximum `MAX`. -/
def satAdd (MAX n k : Nat) : Nat := min (n + k) MAX

/-- Unchecked `+` on an unsigned type with maximum `MAX`: overflow (a
debug-build panic in Rust) is `none`. -/
def checkedAdd (MAX n k : Nat) : Option Nat :=
  if n + k ≤ MAX then some (n + k) else none

/-- The derived total order on the unsigned scalar type itself. -/
def cmpN (s o : Nat) : Ordering :=
  if s < o then .lt else if o < s then .gt else .eq

/-- Embeds `impl PartialOrd for Unit`, `partial_cmp` (lib.rs lines 84-124).
It returns `some` in every branch of the source; the `Option` is kept so
that `ucmp`'s `unwrap` stays visible. -/
def cmpOpt : RUnit → RUnit → Option Ordering
  | .single s, .single o => some (cmpN s o)
  | .single s, .range ol oh =>
      some (if s < ol then .lt else if oh < s then .gt else .eq)
  | .range sl sh, .single o =>
      some (if o < sl then .gt else if sh < o then .lt else .eq)
  | .range sl sh, .range ol oh =>
      some (if (sl ≤ oh ∧ ol ≤ sh) ∨ sl - 1 = oh ∨ sh - 1 = ol then .eq
            else if oh < sl then .gt else .lt)

/-- Embeds `impl Ord for Unit`: `self.partial_cmp(other).unwrap()`.  The
`none` case is dead code (theorem for C8); an arbitrary value stands in
for the panic. -/
def ucmp (a b : RUnit) : Ordering :=
  match cmpOpt a b with
  | some o => o
  | none => .eq

/-- In-order search for an element comparing `Equal` to `probe`
(`BTreeSet::get`; `BTreeSet::contains` is `(sfind s p).isSome`). -/
def sfind : List RUnit → RUnit → Option RUnit
  | [], _ => none
  | e :: rest, probe =>
      match ucmp probe e with
      | .gt => sfind rest probe
      | .eq => some e
      | .lt => none

/-- `BTreeSet::contains`. -/
def scontains (s : List RUnit) (probe : RUnit) : Bool :=
  (sfind s probe).isSome

/-- `BTreeSet::insert`: no-op when an equal element is already present. -/
def sinsert : List RUnit → RUnit → List RUnit
  | [], x => [x]
  | e :: rest, x =>
      match ucmp x e with
      | .gt => e :: sinsert rest x
      | .eq => e :: rest
      | .lt => x :: e :: rest

/-- `BTreeSet::remove`: delete the element comparing equal to `x`. -/
def sremove : List RUnit → RUnit → List RUnit
  | [], _ => []
  | e :: rest, x =>
      match ucmp x e with
      | .gt => e :: sremove rest x
      | .eq => rest
      | .lt => e :: rest

/-- `BTreeSet::replace`: swap `x` in at the equal element's position and
return the displaced element, else insert `x` at its edge position. -/
def sreplace : List RUnit → RUnit → Option RUnit × List RUnit
  | [], x => (none, [x])
  | e :: rest, x =>
      match ucmp x e with
      | .gt =>
          let p := sreplace rest x
          (p.1, e :: p.2)
      | .eq => (some e, x :: rest)
      | .lt => (none, x :: e :: rest)

/-- Embeds `Unit::combine` (lib.rs lines 21-81).  Returns
`some (combined, newSelf)`; on a `false` result the source leaves `self`
untouched, which the returned `RUnit` reflects.  `none` models the
overflow panic of the unchecked `+` in the range/range branch. -/
def combine (MAX : Nat) (self other : RUnit) : Option (Bool × RUnit) :=
  if self = other then some (true, self)
  else
    match self, other with
    | .single s, .single o =>
        let low := min s o
        let high := max s o
        if high - 1 = low then some (true, .range low high)
        else some (false, .single s)
    | .single s, .range ol oh =>
        if ol - 1 = s then some (true, .range s oh)
        else if satAdd MAX oh 1 = s then some (true, .range ol s)
        else some (false, .single s)
    | .range sl sh, .single o =>
        if sh = o - 1 then some (true, .range sl o)
        else if sl = satAdd MAX o 1 then some (true, .range o sh)
        else some (false, .range sl sh)
    | .range sl sh, .range ol oh =>
        if sl ≤ oh ∧ ol ≤ sh then
          some (true, .range (min sl ol) (max sh oh))
        else
          match checkedAdd MAX sh 1 with
          | none => none
          | some sh1 =>
              if sh1 = ol then some (true, .range (min sl ol) (max sh oh))
              else
                match checkedAdd MAX oh 1 with
                | none => none
                | some oh1 =>
                    if oh1 = sl then
                      some (true, .range (min sl ol) (max sh oh))
                    else some (false, .range sl sh)

/-- The `for i in &self.set` loop of `Ranger::put`: try `combine` against
each element in order, stopping at the first success; yields the (possibly
expanded) probe and the element to remove.  On a `false` result combine
left the probe unmodified, so the loop carries `value` on. -/
def combineLoop (MAX : Nat) (value : RUnit) : List RUnit → Option (RUnit × Option RUnit)
  | [] => some (value, none)
  | i :: rest =>
      match combine MAX value i with
      | none => none
      | some (true, value2) => some (value2, some i)
      | some (false, _) => combineLoop MAX value rest

/-- Embeds `Ranger::put` (lib.rs lines 150-170).  `none` would be an
overflow panic inside `combine`. -/
def put (MAX : Nat) (s : List RUnit) (v : Nat) : Option (List RUnit) :=
  let value := RUnit.single v
  if s.isEmpty then some (sinsert s value)
  else if scontains s value then some s
  else
    match combineLoop MAX value s with
    | none => none
    | some (value2, remove) =>
        let s2 := match remove with
                  | some r => sremove s r
                  | none => s
        some (sinsert s2 value2)

/-- `Option::or` (both arguments already evaluated). -/
def optOr (a b : Option RUnit) : Option RUnit :=
  match a with
  | some x => some x
  | none => b

/-- Embeds `Ranger::puts` (lib.rs lines 172-230, live code only).  All of
its arithmetic is saturating, so it is total. -/
def puts (MAX : Nat) (s : List RUnit) (v : Nat) : List RUnit :=
  let value := RUnit.single v
  let one_less := RUnit.single (v - 1)
  let one_more := RUnit.single (satAdd MAX v 1)
  -- if let Some(r) = self.set.get(&value)
  let step1 : List RUnit × Bool :=
    match sfind s value with
    | none => (s, false)
    | some r =>
        match r with
        | .single _ => (s, true)
        | .range sl sh =>
            let sA :=
              match optOr (sfind s (RUnit.single sl)) (sfind s (RUnit.single sh)) with
              | some (.range ol oh) => (sreplace s (.range (min sl ol) (max sh oh))).2
              | _ => s
            let sB :=
              match optOr (sfind sA (RUnit.single sl)) (sfind sA (RUnit.single sh)) with
              | some (.range ol oh) => (sreplace sA (.range (min sl ol) (max sh oh))).2
              | _ => sA
            (sB, true)
  let s1 := step1.1
  -- if let Some(r) = self.set.get(&one_less)
  let step2 : List RUnit × Bool :=
    match sfind s1 one_less with
    | none => (s1, step1.2)
    | some r =>
        match r with
        | .single less =>
            let p := sreplace s1 (.range less v)
            match p.1 with
            | some (.range ol oh) =>
                ((sreplace p.2 (.range (min ol less) (max oh v))).2, true)
            | _ => (p.2, true)
        | .range sl sh =>
            let p := sreplace s1 (.range sl sh)
            match p.1 with
            | some (.range ol oh) =>
                ((sreplace p.2 (.range (min sl ol) (max (max sh oh) v))).2, true)
            | _ => (p.2, true)
  let s2 := step2.1
  -- if let Some(r) = self.set.get(&one_more)
  let step3 : List RUnit × Bool :=
    match sfind s2 one_more with
    | none => (s2, step2.2)
    | some r =>
        match r with
        | .single more =>
            let p := sreplace s2 (.range v more)
            match p.1 with
            | some (.range ol oh) =>
                ((sreplace p.2 (.range (min ol v) (max oh more))).2, true)
            | _ => (p.2, true)
        | .range sl sh =>
            let p := sreplace s2 (.range sl sh)
            match p.1 with
            | some (.range ol oh) =>
                ((sreplace p.2 (.range (min (min sl ol) v) (max sh oh))).2, true)
            | _ => (p.2, true)
  if step3.2 then step3.1 else sinsert step3.1 value

/-- `impl Display for Unit`: `"{s}"` or `"{t}-{u}"`. -/
def render : RUnit → String
  | .single s => toString s
  | .range t u => toString t ++ "-" ++ toString u

/-- `impl Display for Ranger`: the units in order, comma-separated, no
trailing separator. -/
def display (s : List RUnit) : String :=
  String.intercalate "," (s.map render)

/-- Repeated `put` starting from the given state. -/
def foldPut (MAX : Nat) (s : List RUnit) : List Nat → Option (List RUnit)
  | [] => some s
  | v :: vs =>
      match put MAX s v with
      | none => none
      | some s2 => foldPut MAX s2 vs

/-- Repeated `puts` starting from the given state. -/
def foldPuts (MAX : Nat) (s : List RUnit) : List Nat → List RUnit
  | [] => s
  | v :: vs => foldPuts MAX (puts MAX s v) vs

/-- Lower bound of the closed interval a unit denotes. -/
def unitLow : RUnit → Nat
  | .single s => s
  | .range l _ => l

/-- Upper bound of the closed interval a unit denotes. -/
def unitHigh : RUnit → Nat
  | .single s => s
  | .range _ h => h

/-- `low ≤ v ≤ high`: the unit brackets the value. -/
def bracketsB (u : RUnit) (v : Nat) : Bool :=
  decide (unitLow u ≤ v) && decide (v ≤ unitHigh u)

/-- Well-formed unit: `low ≤ high`. -/
def wfB (u : RUnit) : Bool :=
  decide (unitLow u ≤ unitHigh u)

/-- Canonical-form invariant on the in-order element list: every unit
well-formed, consecutive units separated by a gap of at least 2. -/
def canonicalChk : List RUnit → Bool
  | [] => true
  | [u] => wfB u
  | u :: w :: rest =>
      wfB u && decide (unitHigh u + 1 < unitLow w) && canonicalChk (w :: rest)

/-- Modelled from the spec: the repository's `Ranger` has no public
`contains` method in src (only `BTreeSet::contains` used internally), so
§4.3 is embedded directly: search, under the code's `Unit` ordering, for a
stored unit comparing equal to `singleton(v)`. -/
def contains (s : List RUnit) (v : Nat) : Bool :=
  scontains s (RUnit.single v)

/-- The closed intervals of two units intersect. -/
def intersectB (a b : RUnit) : Bool :=
  decide (max (unitLow a) (unitLow b) ≤ min (unitHigh a) (unitHigh b))

/-- Is the unit stored as a `Range`? -/
def isRange : RUnit → Bool
  | .single _ => false
  | .range _ _ => true

/-- The extra equal-cases of the range/range comparison: the left
argument's low minus one (saturating) equals the right's high, or the left
argument's high minus one (saturating) equals the right's low. -/
def rangeQuirkB (a b : RUnit) : Bool :=
  isRange a && isRange b &&
    (decide (unitLow a - 1 = unitHigh b) || decide (unitHigh a - 1 = unitLow b))

/-! ## Helper lemmas -/

/-- `partial_cmp` returns `Some` in every branch. -/
theorem cmpOpt_isSome (a b : RUnit) : (cmpOpt a b).isSome = true := by
  cases a <;> cases b <;> simp [cmpOpt]

/-- `combine` with a `Single` receiver never reaches the unchecked `+` of
the range/range branch. -/
theorem combine_single_isSome (MAX s : Nat) (u : RUnit) :
    (combine MAX (RUnit.single s) u).isSome = true := by
  cases u <;> simp only [combine] <;> split_ifs <;> simp

/-- The scan loop of `put` only ever offers `Single` receivers to
`combine`, hence never hits the overflow. -/
theorem combineLoop_single_isSome (MAX s : Nat) (l : List RUnit) :
    (combineLoop MAX (RUnit.single s) l).isSome = true := by
  induction l with
  | nil => rfl
  | cons i rest ih =>
      have h := combine_single_isSome MAX s i
      rw [combineLoop]
      rcases hc : combine MAX (RUnit.single s) i with _ | ⟨b, u⟩
      · rw [hc] at h; simp at h
      · cases b
        · exact ih
        · rfl

/-- `put` never panics: every execution path yields a state. -/
theorem put_isSome (MAX : Nat) (s : List RUnit) (v : Nat) :
    (put MAX s v).isSome = true := by
  rw [put]
  split
  · rfl
  · split
    · rfl
    · have h := combineLoop_single_isSome MAX v s
      rcases hc : combineLoop MAX (RUnit.single v) s with _ | ⟨value2, remove⟩
      · rw [hc] at h; simp at h
      · simp only [hc]; rfl

/-- Dropping the head of a canonical list keeps it canonical. -/
theorem canonicalChk_tail {u : RUnit} {t : List RUnit}
    (h : canonicalChk (u :: t) = true) : canonicalChk t = true := by
  cases t with
  | nil => rfl
  | cons w r =>
      simp only [canonicalChk, Bool.and_eq_true] at h
      exact h.2

/-- The head of a canonical list is well-formed. -/
theorem canonicalChk_head_wf {u : RUnit} {t : List RUnit}
    (h : canonicalChk (u :: t) = true) : wfB u = true := by
  cases t with
  | nil => exact h
  | cons w r =>
      simp only [canonicalChk, Bool.and_eq_true] at h
      exact h.1.1

/-- In a canonical list every element after the head lies strictly above
the head's interval. -/
theorem high_lt_low_of_mem {h : RUnit} {t : List RUnit}
    (hc : canonicalChk (h :: t) = true) {u : RUnit} (hu : u ∈ t) :
    unitHigh h < unitLow u := by
  induction t generalizing h with
  | nil => cases hu
  | cons w r ih =>
      have hgap : unitHigh h + 1 < unitLow w := by
        simp only [canonicalChk, Bool.and_eq_true, decide_eq_true_eq] at hc
        exact hc.1.2
      have hct : canonicalChk (w :: r) = true := canonicalChk_tail hc
      rcases List.mem_cons.mp hu with rfl | hu
      · omega
      · have hww : unitLow w ≤ unitHigh w := by
          have := canonicalChk_head_wf hct
          simpa [wfB] using this
        have := ih hct hu
        omega

/-- A bracketed probe singleton compares `Equal` to the bracketing unit. -/
theorem ucmp_single_eq_of_brackets {u : RUnit} {v : Nat}
    (h : bracketsB u v = true) : ucmp (RUnit.single v) u = .eq := by
  cases u with
  | single o =>
      simp only [bracketsB, unitLow, unitHigh, Bool.and_eq_true,
        decide_eq_true_eq] at h
      have : v = o := by omega
      simp [ucmp, cmpOpt, cmpN, this]
  | range ol oh =>
      simp only [bracketsB, unitLow, unitHigh, Bool.and_eq_true,
        decide_eq_true_eq] at h
      have h1 : ¬ v < ol := by omega
      have h2 : ¬ oh < v := by omega
      simp [ucmp, cmpOpt, h1, h2]

/-- A probe singleton strictly above a well-formed unit compares
`Greater` to it. -/
theorem ucmp_single_gt_of_high_lt {u : RUnit} {v : Nat}
    (hw : wfB u = true) (h : unitHigh u < v) :
    ucmp (RUnit.single v) u = .gt := by
  cases u with
  | single o =>
      simp only [unitHigh] at h
      have h1 : ¬ v < o := by omega
      simp [ucmp, cmpOpt, cmpN, h1, h]
  | range ol oh =>
      simp only [unitHigh] at h
      simp only [wfB, unitLow, unitHigh, decide_eq_true_eq] at hw
      have h1 : ¬ v < ol := by omega
      simp [ucmp, cmpOpt, h1, h]

/-- In a canonical set the search for a probe singleton succeeds whenever
some stored unit brackets the value. -/
theorem scontains_of_brackets {s : List RUnit} (hc : canonicalChk s = true)
    {u : RUnit} (hu : u ∈ s) {v : Nat} (hv : bracketsB u v = true) :
    scontains s (RUnit.single v) = true := by
  induction s with
  | nil => cases hu
  | cons e t ih =>
      rcases List.mem_cons.mp hu with rfl | hu
      · have he := ucmp_single_eq_of_brackets hv
        simp [scontains, sfind, he]
      · have hlt : unitHigh e < unitLow u := high_lt_low_of_mem hc hu
        have hv2 : unitLow u ≤ v := by
          simp only [bracketsB, Bool.and_eq_true, decide_eq_true_eq] at hv
          exact hv.1
        have hgt : ucmp (RUnit.single v) e = .gt :=
          ucmp_single_gt_of_high_lt (canonicalChk_head_wf hc) (by omega)
        have := ih (canonicalChk_tail hc) hu
        simpa [scontains, sfind, hgt] using this

/-- Whatever the search for a probe singleton returns is a member that
brackets the value. -/
theorem sfind_single_brackets {s : List RUnit} {v : Nat} {u : RUnit}
    (h : sfind s (RUnit.single v) = some u) :
    u ∈ s ∧ bracketsB u v = true := by
  induction s with
  | nil => cases h
  | cons e t ih =>
      rw [sfind] at h
      rcases hcmp : ucmp (RUnit.single v) e with _ | _ | _ <;> rw [hcmp] at h
      · cases h
      · cases h
        refine ⟨List.mem_cons_self _ _, ?_⟩
        cases u with
        | single o =>
            simp only [ucmp, cmpOpt, cmpN] at hcmp
            split_ifs at hcmp
            simp only [bracketsB, unitLow, unitHigh, Bool.and_eq_true,
              decide_eq_true_eq]
            omega
        | range ol oh =>
            simp only [ucmp, cmpOpt] at hcmp
            split_ifs at hcmp
            simp only [bracketsB, unitLow, unitHigh, Bool.and_eq_true,
              decide_eq_true_eq]
            omega
      · have := ih h
        exact ⟨List.mem_cons_of_mem e this.1, this.2⟩

/-! ## Claim theorems -/

/-- C1 (counter-evidence): insertion order is NOT canonicalised away.
Inserting the distinct values 5, 6, 7 in ascending order yields the
string "5-7", but the permutation 5, 7, 6 yields "5-6,7" under `put`,
and "5-7,7" under `puts`: permutations of the same value set produce
different canonical strings. -/
theorem c1_put_order_dependent :
    (foldPut 65535 [] [5, 6, 7]).map display = some "5-7" ∧
    (foldPut 65535 [] [5, 7, 6]).map display = some "5-6,7" ∧
    display (foldPuts 65535 [] [5, 6, 7]) = "5-7" ∧
    display (foldPuts 65535 [] [5, 7, 6]) = "5-7,7" :=
  ⟨rfl, rfl, rfl, rfl⟩

/-- C2 (counter-evidence): after inserting 5, 7, 6 with `put`, the stored
set is `[5-6], [7]` — the first unit's high incremented by one equals the
second unit's low, so the canonical-form (no-adjacency) invariant does
not hold after every insert. -/
theorem c2_put_breaks_invariant :
    foldPut 65535 [] [5, 7, 6] = some [RUnit.range 5 6, RUnit.single 7] ∧
    canonicalChk [RUnit.range 5 6, RUnit.single 7] = false ∧
    unitHigh (RUnit.range 5 6) + 1 = unitLow (RUnit.single 7) :=
  ⟨rfl, rfl, rfl⟩

/-- C3 (counterexample): the claim says the comparison returns `Equal`
whenever the units are adjacent, including two adjacent singletons and a
singleton adjacent to a range; the code compares the singletons 5 and 6
as `Less`, and compares the adjacent ranges [0,4] and [5,9] as `Less`. -/
theorem c3_adjacent_not_equal :
    ucmp (RUnit.single 5) (RUnit.single 6) = .lt ∧
    ucmp (RUnit.single 4) (RUnit.range 5 9) = .lt ∧
    ucmp (RUnit.range 0 4) (RUnit.range 5 9) = .lt :=
  ⟨rfl, rfl, rfl⟩

/-- C3 (amended): for well-formed units, the comparison returns `Equal`
exactly when the two intervals intersect, or both units are ranges and
the left one's low minus one (saturating) equals the right one's high or
the left one's high minus one (saturating) equals the right one's low;
otherwise it returns `Less` exactly when the left unit's high is
strictly below the right unit's low. -/
theorem c3_cmp_characterization (a b : RUnit)
    (ha : wfB a = true) (hb : wfB b = true) :
    (ucmp a b = .eq ↔ (intersectB a b || rangeQuirkB a b) = true) ∧
    (ucmp a b = .lt ↔
      (intersectB a b || rangeQuirkB a b) = false ∧ unitHigh a < unitLow b) := by
  cases a <;> cases b <;>
    simp only [wfB, unitLow, unitHigh, decide_eq_true_eq] at ha hb <;>
    simp only [ucmp, cmpOpt, cmpN, intersectB, rangeQuirkB, isRange,
      unitLow, unitHigh, Bool.or_eq_true, Bool.and_eq_true,
      decide_eq_true_eq, Bool.or_eq_false_iff, Bool.and_eq_false_iff,
      decide_eq_false_iff_not] <;>
    split_ifs <;> simp_all <;> omega

/-- C3 (witness for the amended characterization): the singleton 4 inside
the range [2,9] compares `Equal`. -/
theorem c3_witness : ucmp (RUnit.single 4) (RUnit.range 2 9) = .eq :=
  (c3_cmp_characterization (RUnit.single 4) (RUnit.range 2 9)
      (by decide) (by decide)).1.mpr (by decide)

/-- C4 (counter-evidence): the 33 values of scenario 1 in ascending order
do produce the expected string, but the same values with 7 inserted last
leave the adjacent units [6,7] and [8,8] unmerged: the result depends on
the insertion order and differs from the specified string. -/
theorem c4_scenario1_order_dependent :
    (foldPut 255 []
        [0, 1, 2, 4, 6, 7, 8, 11, 12, 14, 15, 16, 17, 18, 19, 20, 21, 22,
         23, 24, 25, 27, 28, 29, 30, 31, 32, 33, 35, 36, 37, 38, 39]).map
        display = some "0-2,4,6-8,11-12,14-25,27-33,35-39" ∧
    (foldPut 255 []
        [0, 1, 2, 4, 6, 8, 11, 12, 14, 15, 16, 17, 18, 19, 20, 21, 22,
         23, 24, 25, 27, 28, 29, 30, 31, 32, 33, 35, 36, 37, 38, 39, 7]).map
        display = some "0-2,4,6-7,8,11-12,14-25,27-33,35-39" :=
  ⟨rfl, rfl⟩

/-- C5 (counter-evidence): inserting 5, then 7, then 6 does not bridge the
two singletons into one range: `put` yields "5-6,7" (the probe merges
only with 5, leaving [5,6] adjacent to 7), and `puts` yields "5-7,7"
(a stale copy of 7 survives), neither being the specified "5-7". -/
theorem c5_bridging_fails :
    (foldPut 65535 [] [5, 7, 6]).map display = some "5-6,7" ∧
    display (foldPuts 65535 [] [5, 7, 6]) = "5-7,7" :=
  ⟨rfl, rfl⟩

/-- C6 (counterexample): under `puts`, inserting 0 into the set `{0}` —
a value already covered by the stored singleton — is not a no-op: the
stored `Single(0)` is rewritten into the degenerate `Range((0,0))` and
the canonical string changes from "0" to "0-0". -/
theorem c6_puts_covered_not_noop :
    foldPuts 255 [] [0] = [RUnit.single 0] ∧
    puts 255 [RUnit.single 0] 0 = [RUnit.range 0 0] ∧
    display [RUnit.single 0] ≠ display [RUnit.range 0 0] :=
  ⟨rfl, rfl, by decide⟩

/-- C6 (amended): for the `put` insert, on any state satisfying the
canonical-form invariant, inserting a value already covered by some
stored unit leaves the set (and hence its canonical string) unchanged. -/
theorem c6_put_covered_noop (MAX : Nat) {s : List RUnit} {v : Nat}
    (hc : canonicalChk s = true)
    (hcov : ∃ u ∈ s, bracketsB u v = true) :
    put MAX s v = some s := by
  obtain ⟨u, hu, hv⟩ := hcov
  have hcont : scontains s (RUnit.single v) = true :=
    scontains_of_brackets hc hu hv
  cases s with
  | nil => cases hu
  | cons e t =>
      rw [put]
      simp [hcont]

/-- C6 (witness): inserting 2 into the canonical set `{[1,3]}` leaves it
unchanged. -/
theorem c6_witness : put 255 [RUnit.range 1 3] 2 = some [RUnit.range 1 3] :=
  c6_put_covered_noop 255 (by decide) ⟨RUnit.range 1 3, by decide, by decide⟩

/-- C7: over the 8-bit domain (MAX = 255), inserting 254 then 255 yields
"254-255", and inserting 0 afterwards yields "0,254-255" — for both
insert variants; the saturating successor of 255 stays 255, so the
maximal unit is never treated as adjacent to 0. -/
theorem c7_boundary_saturation :
    (foldPut 255 [] [254, 255]).map display = some "254-255" ∧
    (foldPut 255 [] [254, 255, 0]).map display = some "0,254-255" ∧
    display (foldPuts 255 [] [254, 255]) = "254-255" ∧
    display (foldPuts 255 [] [254, 255, 0]) = "0,254-255" ∧
    satAdd 255 255 1 = 255 :=
  ⟨rfl, rfl, rfl, rfl, rfl⟩

/-- C8: insertion never fails.  `put` returns a state for every bound,
every starting set and every value (the unchecked additions of
`Unit::combine`'s range/range branch, modelled as `none`, are unreachable
because `put` only ever combines out of a `Single` probe), and the `Unit`
comparison underlying `Ord::cmp`'s `unwrap` is defined (`some`) on all
pairs of units. -/
theorem c8_insert_total :
    (∀ MAX s v, (put MAX s v).isSome = true) ∧
    (∀ a b, (cmpOpt a b).isSome = true) :=
  ⟨put_isSome, cmpOpt_isSome⟩

/-- C9 (spec-modelled `contains`): on a canonical set, `contains v` is
true exactly when some stored unit brackets `v`; the query is a pure
function of the set, so it does not mutate it. -/
theorem c9_contains_iff (s : List RUnit) (v : Nat)
    (hc : canonicalChk s = true) :
    contains s v = true ↔ ∃ u ∈ s, bracketsB u v = true := by
  constructor
  · intro h
    rcases hf : sfind s (RUnit.single v) with _ | u
    · rw [contains, scontains, hf] at h
      cases h
    · have := sfind_single_brackets hf
      exact ⟨u, this.1, this.2⟩
  · rintro ⟨u, hu, hv⟩
    exact scontains_of_brackets hc hu hv

/-- C9 (witness): 2 is contained in the canonical set `{[1,3]}`. -/
theorem c9_witness : contains [RUnit.range 1 3] 2 = true :=
  (c9_contains_iff [RUnit.range 1 3] 2 (by decide)).mpr
    ⟨RUnit.range 1 3, by decide, by decide⟩

/-- C10: for every value `v`, `Single(v)` and `Range((v, v))` compare
`Equal` in both argument orders, yet their textual renderings — "v" and
"v-v" — always differ, so the formatted string reveals which variant a
degenerate interval is stored as. -/
theorem c10_degenerate_range (v : Nat) :
    ucmp (RUnit.single v) (RUnit.range v v) = .eq ∧
    ucmp (RUnit.range v v) (RUnit.single v) = .eq ∧
    render (RUnit.single v) ≠ render (RUnit.range v v) := by
  refine ⟨by simp [ucmp, cmpOpt], by simp [ucmp, cmpOpt], ?_⟩
  intro h
  simp only [render] at h
  have hlen := congrArg String.length h
  rw [String.length_append, String.length_append] at hlen
  have hone : ("-" : String).length = 1 := rfl
  omega
